import Mathlib

/-!
# Verification of the memorybench checkpoint-driven execution engine

Shallow embedding of the core of the `iowarp/memorybench` repository:
the bounded-concurrency batch executor (`ParallelExecutor.executeBatched`
in `src/orchestrator/parallel.ts`), the parallelism resolver
(`src/types/parallelism.ts`), the per-phase working-set computations of the
five phase runners (`src/orchestrator/phases/*.ts`), the ingest per-question
task body (`runIngestPhase`), the failure wrapping of the phase tasks, and
the answer-prompt template substitution (`buildAnswerPrompt`).

Asynchronous JavaScript is modelled as pure state passing: a task is a pure
function from (item, global index, total) to `Except`, the per-run stop
signal is modelled as the sequence of values it is observed to have at the
one sampling point per batch (a function from batch index to `Bool`), and
the executor returns both its outcome and the trace of global item indices
it dispatched (dispatching and settling coincide in the pure model; the
code's `Promise.all` waits for every promise of the batch to settle because
each task promise catches its own error).  The optional observer callbacks
(`onBatchStart` and friends) and the inter-batch delay are pure
side-channels with no effect on results and are not modelled.
-/

namespace Memorybench

/-- Outcome of `ParallelExecutor.executeBatched`: either the concatenated
per-item results, or one of the three kinds of thrown errors
(`"Concurrency must be positive"`, `"Run stopped by user…"`, or a
propagated task failure). -/
inductive ExecOutcome (ε β : Type) where
  | ok (results : List β)
  | taskFailed (e : ε)
  | stoppedByUser
  | invalidConcurrency
  deriving DecidableEq

/-- The settlement of one batch: `batch.map` in the source builds one promise
per item, passing the stable global index `batchStart + batchOffset` and the
total item count; `Promise.all` resolves with the per-item outcomes in
batch-input order (each promise catches its own error, so every sibling runs
to completion). -/
def settleBatch (task : α → Nat → Nat → Except ε β) (total : Nat) :
    Nat → List α → List (Except ε β)
  | _, [] => []
  | start, x :: xs => task x start total :: settleBatch task total (start + 1) xs

/-- `batchResults.find((r) => !r.success)`: the first error of the batch in
batch-input order, if any. -/
def firstErr : List (Except ε β) → Option ε
  | [] => none
  | .error e :: _ => some e
  | .ok _ :: rest => firstErr rest

/-- `batchResults.filter((r) => r.success).map((r) => r.result)`. -/
def oks : List (Except ε β) → List β
  | [] => []
  | .error _ :: rest => oks rest
  | .ok r :: rest => r :: oks rest

/-- The `for (let batchIdx …)` loop of `executeBatched`.  The first argument
is the number of loop iterations still to run (the source runs exactly
`totalBatches` iterations); `items` is the not-yet-dispatched suffix of the
item list, `batchIdx` the current batch index and `start` the global index
of the first item of the current batch.  Returns the outcome together with
the trace of dispatched global item indices. -/
def runBatches (task : α → Nat → Nat → Except ε β) (stop : Nat → Bool)
    (batchSize total : Nat) :
    Nat → List α → Nat → Nat → ExecOutcome ε β × List Nat
  | 0, _, _, _ => (.ok [], [])
  | rem + 1, items, batchIdx, start =>
    if stop batchIdx then (.stoppedByUser, [])
    else
      let batch := items.take batchSize
      let settled := settleBatch task total start batch
      let dispatched := List.range' start batch.length
      match firstErr settled with
      | some e => (.taskFailed e, dispatched)
      | none =>
        let next := runBatches task stop batchSize total rem (items.drop batchSize)
          (batchIdx + 1) (start + batch.length)
        (match next.1 with
          | .ok rs => .ok (oks settled ++ rs)
          | o => o,
          dispatched ++ next.2)

/-- `ParallelExecutor.executeBatched` (src/orchestrator/parallel.ts).
Note the source order of the guards: the empty-items early return comes
before the non-positive-concurrency check.  `concurrency` is an `Int`
mirroring the JavaScript number; `Math.ceil(items.length / batchSize)` for a
positive integer `batchSize` is `(length + batchSize - 1) / batchSize` in
natural division. -/
def executeBatched (items : List α) (concurrency : Int) (stop : Nat → Bool)
    (task : α → Nat → Nat → Except ε β) : ExecOutcome ε β × List Nat :=
  if items.length = 0 then (.ok [], [])
  else if concurrency ≤ 0 then (.invalidConcurrency, [])
  else
    let batchSize := concurrency.toNat
    let totalBatches := (items.length + batchSize - 1) / batchSize
    runBatches task stop batchSize items.length totalBatches items 0 0

/-! ## Parallelism resolver (src/types/parallelism.ts) -/

/-- The five phase identifiers. -/
inductive PhaseId where
  | ingest | indexing | search | answer | evaluate
  deriving DecidableEq

/-- `ParallelismConfig`.  Every field is modelled as optional: the source
guards each access with `!== undefined`, so a runtime object may omit any of
them (the TypeScript type marks only the per-phase fields optional). -/
structure ParallelismConfig where
  default : Option Int := none
  ingest : Option Int := none
  indexing : Option Int := none
  search : Option Int := none
  answer : Option Int := none
  evaluate : Option Int := none
  deriving DecidableEq

/-- `config[phase]` member access. -/
def phaseField (c : ParallelismConfig) : PhaseId → Option Int
  | .ingest => c.ingest
  | .indexing => c.indexing
  | .search => c.search
  | .answer => c.answer
  | .evaluate => c.evaluate

/-- `resolveParallelism` (src/types/parallelism.ts): the four-step priority
chain with fallback 1.  `opt.bind f` models the `cfg && cfg.x !== undefined`
guard chains. -/
def resolveParallelism (phase : PhaseId)
    (cliConfig providerDefault : Option ParallelismConfig) : Int :=
  match cliConfig.bind (fun c => phaseField c phase) with
  | some v => v
  | none =>
    match cliConfig.bind (fun c => c.default) with
    | some v => v
    | none =>
      match providerDefault.bind (fun c => phaseField c phase) with
      | some v => v
      | none =>
        match providerDefault.bind (fun c => c.default) with
        | some v => v
        | none => 1

/-! ## Container tags -/

/-- The container tag as derived in `runIngestPhase`
(`${question.questionId}-${checkpoint.dataSourceRunId}`). -/
def ingestContainerTag (questionId dataSourceRunId : String) : String :=
  questionId ++ "-" ++ dataSourceRunId

/-- The container tag as derived in `runSearchPhase`
(src/orchestrator/phases/search.ts line 53), textually the same template
literal as the ingest one. -/
def searchContainerTag (questionId dataSourceRunId : String) : String :=
  questionId ++ "-" ++ dataSourceRunId

/-! ## Checkpoint data model (src/types/checkpoint.ts, consumed by the phase
runners; only the fields the phase runners read or write are modelled) -/

/-- Phase status values. -/
inductive PhaseStatus where
  | pending | inProgress | completed | failed
  deriving DecidableEq

/-- `IngestResult` (src/types/provider.ts): `documentIds` plus optional
`taskIds`. -/
structure IngestResult where
  documentIds : List String
  taskIds : Option (List String)
  deriving DecidableEq

/-- Ingest `PhaseState` payload. -/
structure IngestPhaseState where
  status : PhaseStatus := .pending
  completedSessions : List String := []
  ingestResult : Option IngestResult := none
  error : Option String := none
  deriving DecidableEq

/-- Indexing `PhaseState`. -/
structure IndexingPhaseState where
  status : PhaseStatus := .pending
  error : Option String := none
  deriving DecidableEq

/-- Search `PhaseState` payload (the raw `results` list is kept abstract as
an opaque record count-free list of strings standing for the
provider-shaped records). -/
structure SearchPhaseState where
  status : PhaseStatus := .pending
  resultFile : Option String := none
  results : List String := []
  error : Option String := none
  deriving DecidableEq

/-- Answer `PhaseState` payload. -/
structure AnswerPhaseState where
  status : PhaseStatus := .pending
  hypothesis : Option String := none
  error : Option String := none
  deriving DecidableEq

/-- Evaluate `PhaseState` payload (score/label/explanation/metrics are not
needed by any claim and are omitted). -/
structure EvaluatePhaseState where
  status : PhaseStatus := .pending
  error : Option String := none
  deriving DecidableEq

/-- `QuestionCheckpoint`: one entry of `checkpoint.questions`. -/
structure QuestionCheckpoint where
  questionId : String
  questionDate : Option String := none
  containerTag : String := ""
  ingest : IngestPhaseState := {}
  indexing : IndexingPhaseState := {}
  search : SearchPhaseState := {}
  answer : AnswerPhaseState := {}
  evaluate : EvaluatePhaseState := {}
  deriving DecidableEq

/-- `RunCheckpoint`: the keyed map `questions` is modelled as an association
list (JavaScript object keys are unique). -/
structure RunCheckpoint where
  runId : String
  dataSourceRunId : String
  answeringModel : String := ""
  parallelism : Option ParallelismConfig := none
  questions : List (String × QuestionCheckpoint)
  deriving DecidableEq

/-- Status of a question's phase read directly off an entry. -/
def QuestionCheckpoint.statusOf (q : QuestionCheckpoint) : PhaseId → PhaseStatus
  | .ingest => q.ingest.status
  | .indexing => q.indexing.status
  | .search => q.search.status
  | .answer => q.answer.status
  | .evaluate => q.evaluate.status

/-- Modelled from the spec: `CheckpointManager.getPhaseStatus`
(`src/orchestrator/checkpoint.ts` is not among the provided sources; spec
§4.1 says it returns the question's phase status, defaulting to `pending`
if absent). -/
def getPhaseStatus (cp : RunCheckpoint) (questionId : String)
    (phase : PhaseId) : PhaseStatus :=
  match cp.questions.lookup questionId with
  | none => .pending
  | some q => q.statusOf phase

/-! ## Phase working sets (the `pendingQuestions` / `toIndex` filters of the
five phase runners) -/

/-- A benchmark question as returned by `benchmark.getQuestions()`; only the
identifier is read by the working-set filters. -/
structure BenchQuestion where
  questionId : String
  deriving DecidableEq

/-- The caller-supplied subset step shared by the runners that iterate the
benchmark: `questionIds ? questions.filter(…includes…) : questions`. -/
def targetOf (questions : List BenchQuestion)
    (questionIds : Option (List String)) : List BenchQuestion :=
  match questionIds with
  | some ids => questions.filter (fun q => ids.contains q.questionId)
  | none => questions

/-- `runIngestPhase`'s `pendingQuestions` filter: status not completed, no
prerequisite. -/
def ingestPendingQuestions (questions : List BenchQuestion)
    (questionIds : Option (List String)) (cp : RunCheckpoint) :
    List BenchQuestion :=
  (targetOf questions questionIds).filter
    (fun q => getPhaseStatus cp q.questionId .ingest != .completed)

/-- `runIndexingPhase`'s candidate set: this runner iterates the checkpoint
entries (`Object.values(checkpoint.questions)`) rather than the benchmark,
then applies the caller-supplied subset. -/
def indexingCandidates (cp : RunCheckpoint)
    (questionIds : Option (List String)) : List QuestionCheckpoint :=
  let allQuestions : List QuestionCheckpoint := cp.questions.map (fun e => e.2)
  match questionIds with
  | some ids => allQuestions.filter (fun q => ids.contains q.questionId)
  | none => allQuestions

/-- `runIndexingPhase`'s `toIndex` filter. -/
def indexingPendingQuestions (cp : RunCheckpoint)
    (questionIds : Option (List String)) : List QuestionCheckpoint :=
  (indexingCandidates cp questionIds).filter (fun q =>
    q.ingest.status == .completed && q.indexing.status != .completed)

/-- `runSearchPhase`'s `pendingQuestions` filter. -/
def searchPendingQuestions (questions : List BenchQuestion)
    (questionIds : Option (List String)) (cp : RunCheckpoint) :
    List BenchQuestion :=
  (targetOf questions questionIds).filter (fun q =>
    getPhaseStatus cp q.questionId .search != .completed &&
    getPhaseStatus cp q.questionId .indexing == .completed)

/-- `runAnswerPhase`'s `pendingQuestions` filter.  The JavaScript
`resultFile && existsSync(resultFile)` makes an empty-string path falsy;
`existsSync` is modelled by the ambient `fileExists` predicate. -/
def answerPendingQuestions (questions : List BenchQuestion)
    (questionIds : Option (List String)) (cp : RunCheckpoint)
    (fileExists : String → Bool) : List BenchQuestion :=
  (targetOf questions questionIds).filter (fun q =>
    getPhaseStatus cp q.questionId .answer != .completed &&
    getPhaseStatus cp q.questionId .search == .completed &&
    (match (cp.questions.lookup q.questionId).bind
        (fun qc => qc.search.resultFile) with
     | some f => f != "" && fileExists f
     | none => false))

/-- `runEvaluatePhase`'s `pendingQuestions` filter; `hypothesis` is used as
a JavaScript truthiness test, so an empty hypothesis string is excluded. -/
def evaluatePendingQuestions (questions : List BenchQuestion)
    (questionIds : Option (List String)) (cp : RunCheckpoint) :
    List BenchQuestion :=
  (targetOf questions questionIds).filter (fun q =>
    getPhaseStatus cp q.questionId .evaluate != .completed &&
    getPhaseStatus cp q.questionId .answer == .completed &&
    (match (cp.questions.lookup q.questionId).bind
        (fun qc => qc.answer.hypothesis) with
     | some h => h != ""
     | none => false))

/-- The early-return shape shared by every runner: if the working set is
empty the runner logs and returns (`none`); otherwise it drives the Batch
Executor over exactly the working set (`some workingSet`). -/
def phaseRunnerDispatch (pending : List σ) : Option (List σ) :=
  if pending.isEmpty then none else some pending

/-- `runIngestPhase` up to its executor invocation. -/
def runIngestPhaseDispatch (questions : List BenchQuestion)
    (questionIds : Option (List String)) (cp : RunCheckpoint) :
    Option (List BenchQuestion) :=
  phaseRunnerDispatch (ingestPendingQuestions questions questionIds cp)

/-- `runIndexingPhase` up to its executor invocation. -/
def runIndexingPhaseDispatch (cp : RunCheckpoint)
    (questionIds : Option (List String)) : Option (List QuestionCheckpoint) :=
  phaseRunnerDispatch (indexingPendingQuestions cp questionIds)

/-- `runSearchPhase` up to its executor invocation. -/
def runSearchPhaseDispatch (questions : List BenchQuestion)
    (questionIds : Option (List String)) (cp : RunCheckpoint) :
    Option (List BenchQuestion) :=
  phaseRunnerDispatch (searchPendingQuestions questions questionIds cp)

/-- `runAnswerPhase` up to its executor invocation. -/
def runAnswerPhaseDispatch (questions : List BenchQuestion)
    (questionIds : Option (List String)) (cp : RunCheckpoint)
    (fileExists : String → Bool) : Option (List BenchQuestion) :=
  phaseRunnerDispatch (answerPendingQuestions questions questionIds cp fileExists)

/-- `runEvaluatePhase` up to its executor invocation. -/
def runEvaluatePhaseDispatch (questions : List BenchQuestion)
    (questionIds : Option (List String)) (cp : RunCheckpoint) :
    Option (List BenchQuestion) :=
  phaseRunnerDispatch (evaluatePendingQuestions questions questionIds cp)

/-! Spec-side inclusion predicates, written after the spec's working-set
table (§4.4): "included when status of the phase is not `completed` and the
prerequisite holds".  These are the refinement targets the source filters
are compared against. -/

/-- Spec predicate for ingest: status not completed; no prerequisite. -/
def specIncludedIngest (cp : RunCheckpoint) (questionId : String) : Prop :=
  getPhaseStatus cp questionId .ingest ≠ .completed

/-- Spec predicate for indexing (phrased on the checkpoint entry, which is
what this runner iterates): indexing not completed, ingest completed. -/
def specIncludedIndexing (q : QuestionCheckpoint) : Prop :=
  q.indexing.status ≠ .completed ∧ q.ingest.status = .completed

/-- Spec predicate for search: search not completed, indexing completed. -/
def specIncludedSearch (cp : RunCheckpoint) (questionId : String) : Prop :=
  getPhaseStatus cp questionId .search ≠ .completed ∧
  getPhaseStatus cp questionId .indexing = .completed

/-- Spec predicate for answer: answer not completed, search completed, and
the recorded search result artifact still exists (a recorded artifact means
a stored non-empty path that the filesystem reports as existing). -/
def specIncludedAnswer (cp : RunCheckpoint) (fileExists : String → Bool)
    (questionId : String) : Prop :=
  getPhaseStatus cp questionId .answer ≠ .completed ∧
  getPhaseStatus cp questionId .search = .completed ∧
  ∃ f, (cp.questions.lookup questionId).bind (fun qc => qc.search.resultFile)
      = some f ∧ f ≠ "" ∧ fileExists f = true

/-- Spec predicate for evaluate: evaluate not completed, answer completed,
and a non-empty hypothesis stored. -/
def specIncludedEvaluate (cp : RunCheckpoint) (questionId : String) : Prop :=
  getPhaseStatus cp questionId .evaluate ≠ .completed ∧
  getPhaseStatus cp questionId .answer = .completed ∧
  ∃ h, (cp.questions.lookup questionId).bind (fun qc => qc.answer.hypothesis)
      = some h ∧ h ≠ ""

/-! ## The ingest per-question task body (`runIngestPhase`'s `executeTask`)

The provider's ingest operation for the fixed question and container tag is
modelled as a pure map from session id to `Except` (the source calls
`provider.ingest([session], { containerTag })` with exactly one session per
call).  Checkpoint persistence is explicit: the loop returns, besides the
provider-call trace, the list of `completedSessions` snapshots persisted by
the per-session `updatePhase` calls, and the final value of the (mutated in
place) `completedSessions` array. -/

/-- Result of the `for (const session of sessions)` loop: provider calls in
order, persisted `completedSessions` snapshots in order, the final
`completedSessions` value, and either the accumulated `combinedResult` or
the first provider error. -/
structure IngestLoopResult where
  calls : List String
  persisted : List (List String)
  finalCompleted : List String
  outcome : Except String IngestResult

/-- The session loop of the ingest task.  Sessions already in
`completedSessions` are skipped; otherwise the provider is called, document
and task ids are appended to `combinedResult`, the session id is pushed
onto `completedSessions` and the grown list is persisted at once.  On a
provider error the loop stops; `completedSessions` keeps what was pushed so
far and `combinedResult` is discarded by the caller. -/
def ingestLoop (prov : String → Except String IngestResult) :
    List String → List String → IngestResult → IngestLoopResult
  | [], completed, combined =>
    { calls := []
      persisted := []
      finalCompleted := completed
      outcome := .ok combined }
  | s :: rest, completed, combined =>
    if completed.contains s then
      ingestLoop prov rest completed combined
    else
      match prov s with
      | .error e =>
        { calls := [s]
          persisted := []
          finalCompleted := completed
          outcome := .error e }
      | .ok r =>
        let combined' : IngestResult :=
          { documentIds := combined.documentIds ++ r.documentIds
            taskIds := match r.taskIds with
              | some t => some (combined.taskIds.getD [] ++ t)
              | none => combined.taskIds }
        let completed' := completed ++ [s]
        let tail := ingestLoop prov rest completed' combined'
        { calls := s :: tail.calls
          persisted := completed' :: tail.persisted
          finalCompleted := tail.finalCompleted
          outcome := tail.outcome }

/-- The post-loop merge: `delete combinedResult.taskIds` when it is the
(still-present) empty array, then concatenation with any previously stored
`ingestResult` (an empty `taskIds` array is truthy in JavaScript, hence the
`isSome` tests). -/
def mergeIngestResult (existing : Option IngestResult)
    (combined : IngestResult) : IngestResult :=
  let combined' : IngestResult :=
    if combined.taskIds = some [] then { combined with taskIds := none }
    else combined
  match existing with
  | none => combined'
  | some ex =>
    { documentIds := ex.documentIds ++ combined'.documentIds
      taskIds :=
        if ex.taskIds.isSome || combined'.taskIds.isSome then
          some (ex.taskIds.getD [] ++ combined'.taskIds.getD [])
        else combined'.taskIds }

/-- The wrapped error thrown by the ingest task's catch block. -/
def wrapIngestError (questionId e : String) : String :=
  "Ingest failed at " ++ questionId ++ ": " ++ e ++
    ". Fix the issue and resume with the same run ID."

/-- `runIngestPhase`'s per-question task body, acting on that question's
ingest phase state.  Returns the phase state as persisted when the task
settles, together with `.ok` on success or the wrapped thrown error.
(The transient `in_progress` update and timestamps are superseded by the
settling update and are not modelled separately.) -/
def runIngestTask (questionId : String)
    (prov : String → Except String IngestResult) (sessions : List String)
    (st : IngestPhaseState) : IngestPhaseState × Except String Unit :=
  let loop := ingestLoop prov sessions st.completedSessions
    { documentIds := [], taskIds := some [] }
  match loop.outcome with
  | .error e =>
    ({ st with
        status := .failed
        error := some e
        completedSessions := loop.finalCompleted },
     .error (wrapIngestError questionId e))
  | .ok combined =>
    ({ st with
        status := .completed
        completedSessions := loop.finalCompleted
        ingestResult := some (mergeIngestResult st.ingestResult combined) },
     .ok ())

/-! ## Failure wrapping in the search task (`runSearchPhase`'s catch block) -/

/-- The wrapped error thrown by the search task's catch block. -/
def wrapSearchError (questionId e : String) : String :=
  "Search failed at " ++ questionId ++ ": " ++ e ++
    ". Fix the issue and resume with the same run ID."

/-- `runSearchPhase`'s per-question task body restricted to its settling
behaviour: `searchOutcome` is the result of the awaited
`provider.search(...)` call; on success the artifact path is recorded and
the phase completed, on failure the phase is recorded `failed` with the raw
error message and the wrapped error is thrown. -/
def runSearchTask (questionId resultsDir : String)
    (searchOutcome : Except String (List String))
    (st : SearchPhaseState) : SearchPhaseState × Except String Unit :=
  match searchOutcome with
  | .ok results =>
    ({ st with
        status := .completed
        resultFile := some (resultsDir ++ "/" ++ questionId ++ ".json")
        results := results },
     .ok ())
  | .error e =>
    ({ st with status := .failed, error := some e },
     .error (wrapSearchError questionId e))

/-- The fixed remediation instruction shared by every phase's wrapped
error. -/
def remediationSuffix : String :=
  ". Fix the issue and resume with the same run ID."

/-! ## Answer prompt construction (`buildAnswerPrompt`)

Strings are modelled as `List Char`; `jsReplaceFirst` models
`String.prototype.replace` with a string search argument: only the first
occurrence is replaced, and the replacement value undergoes the
`GetSubstitution` dollar escapes (`$$`, the matched text, the text before
and the text after the match; any other dollar sequence is literal). -/

/-- Splits `s` at the first occurrence of `p`: `some (before, after)` with
`s = before ++ p ++ after` and `before` shortest, or `none` when `p` does
not occur. -/
def splitFirst (p : List Char) : List Char → Option (List Char × List Char)
  | [] => if p.isPrefixOf [] then some ([], ([] : List Char).drop p.length) else none
  | c :: rest =>
    if p.isPrefixOf (c :: rest) then some ([], (c :: rest).drop p.length)
    else
      match splitFirst p rest with
      | some (a, b) => some (c :: a, b)
      | none => none

/-- The `GetSubstitution` dollar-escape processing of the replacement value
(`matched` is the search string itself, `before`/`after` the surrounding
text). -/
def substDollar (matched before after : List Char) : List Char → List Char
  | [] => []
  | c :: rest =>
    if c = '$' then
      match rest with
      | [] => [c]
      | d :: rest2 =>
        if d = '$' then '$' :: substDollar matched before after rest2
        else if d = '&' then matched ++ substDollar matched before after rest2
        else if d = Char.ofNat 96 then before ++ substDollar matched before after rest2
        else if d = Char.ofNat 39 then after ++ substDollar matched before after rest2
        else c :: d :: substDollar matched before after rest2
    else c :: substDollar matched before after rest

/-- `s.replace(p, v)` for a string pattern `p`. -/
def jsReplaceFirst (s p v : List Char) : List Char :=
  match splitFirst p s with
  | some (a, b) => a ++ substDollar p a b v ++ b
  | none => s

/-- The question placeholder. -/
def questionPlaceholder : List Char := "\x7b\x7bquestion\x7d\x7d".data

/-- The question-date placeholder. -/
def questionDatePlaceholder : List Char := "\x7b\x7bquestionDate\x7d\x7d".data

/-- The context placeholder. -/
def contextPlaceholder : List Char := "\x7b\x7bcontext\x7d\x7d".data

/-- The literal default for an absent question date. -/
def notSpecifiedText : List Char := "Not specified".data

/-- `questionDate || "Not specified"`: JavaScript truthiness makes both an
absent and an empty date fall back to the literal. -/
def questionDateOrDefault (questionDate : Option (List Char)) : List Char :=
  match questionDate with
  | some d => if d = [] then notSpecifiedText else d
  | none => notSpecifiedText

/-- A provider's `prompts.answerPrompt` override: either a builder function
over (question, raw context, optional date) or a string template.  The raw
retrieved context records are an opaque type `κ`. -/
inductive AnswerPromptOverride (κ : Type) where
  | fn (f : List Char → κ → Option (List Char) → List Char)
  | tmpl (t : List Char)

/-- `buildAnswerPrompt` (src/orchestrator/phases/answer.ts lines 42-56).
`buildContextString` and `buildDefaultAnswerPrompt` live in source files
outside the provided sources and are passed in as collaborator
parameters. -/
def buildAnswerPrompt (buildContextString : κ → List Char)
    (buildDefaultAnswerPrompt : List Char → κ → Option (List Char) → List Char)
    (question : List Char) (context : κ) (questionDate : Option (List Char))
    (override : Option (AnswerPromptOverride κ)) : List Char :=
  match override with
  | some (.fn f) => f question context questionDate
  | some (.tmpl t) =>
    let contextStr := buildContextString context
    jsReplaceFirst
      (jsReplaceFirst
        (jsReplaceFirst t questionPlaceholder question)
        questionDatePlaceholder (questionDateOrDefault questionDate))
      contextPlaceholder contextStr
  | none => buildDefaultAnswerPrompt question context questionDate

/-! ## Batch executor lemmas -/

theorem settleBatch_all_ok (task : α → Nat → Nat → Except ε β) (total : Nat)
    (r : Nat → β) :
    ∀ (batch : List α) (start : Nat),
      (∀ k (hk : k < batch.length),
        task (batch.get ⟨k, hk⟩) (start + k) total = .ok (r (start + k))) →
      settleBatch task total start batch
        = (List.range' start batch.length).map (fun i => Except.ok (r i)) := by
  intro batch
  induction batch with
  | nil => intro start _; rfl
  | cons x xs ih =>
    intro start h
    have h0 := h 0 (Nat.succ_pos _)
    simp only [List.get_eq_getElem, List.getElem_cons_zero, Nat.add_zero] at h0
    show task x start total :: settleBatch task total (start + 1) xs = _
    rw [List.length_cons, List.range'_succ, List.map_cons, h0]
    congr 1
    apply ih
    intro k hk
    have hh := h (k + 1) (Nat.succ_lt_succ hk)
    simp only [List.get_eq_getElem, List.getElem_cons_succ] at hh
    simpa [Nat.add_assoc, Nat.add_comm 1 k] using hh

theorem firstErr_map_ok (f : Nat → β) :
    ∀ l : List Nat, firstErr (l.map fun i => (Except.ok (f i) : Except ε β)) = none := by
  intro l
  induction l with
  | nil => rfl
  | cons a l ih => simpa [firstErr] using ih

theorem oks_map_ok (f : Nat → β) :
    ∀ l : List Nat, oks (l.map fun i => (Except.ok (f i) : Except ε β)) = l.map f := by
  intro l
  induction l with
  | nil => rfl
  | cons a l ih => simpa [oks] using ih

theorem firstErr_settle_none (task : α → Nat → Nat → Except ε β) (total : Nat) :
    ∀ (batch : List α) (start : Nat),
      (∀ k (hk : k < batch.length),
        ∃ v, task (batch.get ⟨k, hk⟩) (start + k) total = .ok v) →
      firstErr (settleBatch task total start batch) = none := by
  intro batch
  induction batch with
  | nil => intro start _; rfl
  | cons x xs ih =>
    intro start h
    obtain ⟨v, hv⟩ := h 0 (Nat.succ_pos _)
    simp only [List.get_eq_getElem, List.getElem_cons_zero, Nat.add_zero] at hv
    show firstErr (task x start total :: settleBatch task total (start + 1) xs) = none
    rw [hv]
    show firstErr (settleBatch task total (start + 1) xs) = none
    apply ih
    intro k hk
    obtain ⟨w, hw⟩ := h (k + 1) (Nat.succ_lt_succ hk)
    simp only [List.get_eq_getElem, List.getElem_cons_succ] at hw
    exact ⟨w, by simpa [Nat.add_assoc, Nat.add_comm 1 k] using hw⟩

theorem firstErr_settle_fail (task : α → Nat → Nat → Except ε β) (total : Nat)
    (e : ε) :
    ∀ (batch : List α) (j start : Nat) (hj : j < batch.length),
      task (batch.get ⟨j, hj⟩) (start + j) total = .error e →
      (∀ k (hk : k < j),
        ∃ v, task (batch.get ⟨k, Nat.lt_trans hk hj⟩) (start + k) total = .ok v) →
      firstErr (settleBatch task total start batch) = some e := by
  intro batch
  induction batch with
  | nil => intro j start hj; exact absurd hj (Nat.not_lt_zero j)
  | cons x xs ih =>
    intro j start hj hfail hpre
    match j with
    | 0 =>
      simp only [List.get_eq_getElem, List.getElem_cons_zero, Nat.add_zero] at hfail
      show firstErr (task x start total :: settleBatch task total (start + 1) xs) = some e
      rw [hfail]
      rfl
    | j + 1 =>
      obtain ⟨v, hv⟩ := hpre 0 (Nat.succ_pos _)
      simp only [List.get_eq_getElem, List.getElem_cons_zero, Nat.add_zero] at hv
      show firstErr (task x start total :: settleBatch task total (start + 1) xs) = some e
      rw [hv]
      show firstErr (settleBatch task total (start + 1) xs) = some e
      have hj' : j < xs.length := Nat.lt_of_succ_lt_succ hj
      apply ih j (start + 1) hj'
      · have := hfail
        simp only [List.get_eq_getElem, List.getElem_cons_succ] at this
        simpa [Nat.add_assoc, Nat.add_comm 1 j] using this
      · intro k hk
        obtain ⟨w, hw⟩ := hpre (k + 1) (Nat.succ_lt_succ hk)
        simp only [List.get_eq_getElem, List.getElem_cons_succ] at hw
        exact ⟨w, by simpa [Nat.add_assoc, Nat.add_comm 1 k] using hw⟩

theorem runBatches_all_ok (task : α → Nat → Nat → Except ε β) (stop : Nat → Bool)
    (bs total : Nat) (r : Nat → β)
    (hstop : ∀ b, stop b = false) :
    ∀ (rem : Nat) (items : List α) (batchIdx start : Nat),
      items.length ≤ rem * bs →
      (∀ k (hk : k < items.length),
        task (items.get ⟨k, hk⟩) (start + k) total = .ok (r (start + k))) →
      runBatches task stop bs total rem items batchIdx start
        = (.ok ((List.range' start items.length).map r),
           List.range' start items.length) := by
  intro rem
  induction rem with
  | zero =>
    intro items batchIdx start hcov _
    have hnil : items = [] := List.length_eq_zero.mp (Nat.le_zero.mp (by simpa using hcov))
    subst hnil
    rfl
  | succ rem ih =>
    intro items batchIdx start hcov hok
    have hoktake : ∀ k (hk : k < (items.take bs).length),
        task ((items.take bs).get ⟨k, hk⟩) (start + k) total = .ok (r (start + k)) := by
      intro k hk
      have hk' : k < items.length := by
        rw [List.length_take] at hk
        omega
      have hget : (items.take bs).get ⟨k, hk⟩ = items.get ⟨k, hk'⟩ := by
        simp [List.get_eq_getElem, List.getElem_take]
      rw [hget]
      exact hok k hk'
    have hsettle := settleBatch_all_ok task total r (items.take bs) start hoktake
    have hcov' : (items.drop bs).length ≤ rem * bs := by
      rw [List.length_drop]
      rw [Nat.succ_mul] at hcov
      exact Nat.sub_le_iff_le_add.mpr hcov
    have hok' : ∀ k (hk : k < (items.drop bs).length),
        task ((items.drop bs).get ⟨k, hk⟩) (start + (items.take bs).length + k) total
          = .ok (r (start + (items.take bs).length + k)) := by
      intro k hk
      have hlen : k < items.length - bs := by simpa [List.length_drop] using hk
      have hbslen : bs < items.length := by omega
      have htl : (items.take bs).length = bs := by
        rw [List.length_take]; omega
      have hbk : bs + k < items.length := by omega
      have hget : (items.drop bs).get ⟨k, hk⟩ = items.get ⟨bs + k, hbk⟩ := by
        simp [List.get_eq_getElem, List.getElem_drop]
      rw [hget, htl, Nat.add_assoc]
      exact hok (bs + k) hbk
    have hrec := ih (items.drop bs) (batchIdx + 1) (start + (items.take bs).length)
      hcov' hok'
    rw [runBatches, hstop batchIdx]
    simp only [Bool.false_eq_true, if_false, hsettle, firstErr_map_ok, oks_map_ok,
      List.length_map, List.length_range', hrec, List.length_drop]
    have harr := List.range'_append start (items.take bs).length
      (items.length - bs) 1
    simp only [Nat.one_mul, Nat.mul_one] at harr
    have hsum : items.length - bs + (items.take bs).length = items.length := by
      rw [List.length_take]; omega
    rw [hsum] at harr
    rw [← List.map_append, harr]

theorem le_ceil_mul (n bs : Nat) (hbs : 0 < bs) : n ≤ ((n + bs - 1) / bs) * bs := by
  rcases Nat.eq_zero_or_pos n with h | h
  · subst h; exact Nat.zero_le _
  · have hd := Nat.div_add_mod (n + bs - 1) bs
    have hm : (n + bs - 1) % bs < bs := Nat.mod_lt _ hbs
    rw [Nat.mul_comm]
    generalize hq : bs * ((n + bs - 1) / bs) = t at *
    omega

theorem ceil_pred_mul_lt (n bs : Nat) (hbs : 0 < bs) (hn : n ≠ 0) :
    (((n + bs - 1) / bs) - 1) * bs < n := by
  have h1 : n + bs - 1 = (n - 1) + bs := by omega
  have h2 : ((n - 1) + bs) / bs = (n - 1) / bs + 1 := Nat.add_div_right _ hbs
  rw [h1, h2]
  simp only [Nat.add_sub_cancel]
  have := Nat.div_mul_le_self (n - 1) bs
  omega

theorem flatten_batches (bs : Nat) :
    ∀ (k : Nat) (l : List α), l.length ≤ k * bs →
      List.flatten ((List.range k).map (fun b => (l.drop (b * bs)).take bs)) = l := by
  intro k
  induction k with
  | zero =>
    intro l h
    have : l = [] := List.length_eq_zero.mp (Nat.le_zero.mp (by simpa using h))
    subst this
    rfl
  | succ k ih =>
    intro l h
    rw [List.range_succ_eq_map, List.map_cons, List.map_map, List.flatten_cons]
    have hrw : ((fun b => (l.drop (b * bs)).take bs) ∘ Nat.succ)
        = fun b => ((l.drop bs).drop (b * bs)).take bs := by
      funext b
      simp only [Function.comp_apply, List.drop_drop]
      congr 2
      rw [Nat.succ_mul]
      omega
    rw [hrw]
    have hcov : (l.drop bs).length ≤ k * bs := by
      rw [List.length_drop]
      rw [Nat.succ_mul] at h
      exact Nat.sub_le_iff_le_add.mpr h
    rw [ih (l.drop bs) hcov]
    simp only [Nat.zero_mul, List.drop_zero]
    exact List.take_append_drop bs l

/-- C2: with a positive bound `C` and no failure and no stop,
`executeBatched` partitions the `N` items into `ceil(N/C)` consecutive
batches whose concatenation is the input list, dispatches every global
index exactly once in input order, hands each task its stable global index
and the total `N` (visible in the hypothesis shape), and returns the
per-item results in exactly the input order.  The two arithmetic conjuncts
pin the batch count down as the ceiling of `N / C`. -/
theorem executeBatched_success_in_order (items : List α) (C : Int)
    (task : α → Nat → Nat → Except ε β) (r : Nat → β)
    (hC : 0 < C)
    (hok : ∀ k (hk : k < items.length),
      task (items.get ⟨k, hk⟩) k items.length = .ok (r k)) :
    executeBatched items C (fun _ => false) task
      = (.ok ((List.range items.length).map r), List.range items.length)
    ∧ items.length ≤ ((items.length + C.toNat - 1) / C.toNat) * C.toNat
    ∧ (items.length ≠ 0 →
        (((items.length + C.toNat - 1) / C.toNat) - 1) * C.toNat < items.length)
    ∧ List.flatten ((List.range ((items.length + C.toNat - 1) / C.toNat)).map
        (fun b => (items.drop (b * C.toNat)).take C.toNat)) = items := by
  have hbs : 0 < C.toNat := by omega
  have hcov := le_ceil_mul items.length C.toNat hbs
  refine ⟨?_, hcov, ceil_pred_mul_lt items.length C.toNat hbs,
    flatten_batches C.toNat _ items hcov⟩
  rcases Nat.eq_zero_or_pos items.length with hz | hz
  · have : items = [] := List.length_eq_zero.mp hz
    subst this
    rfl
  · have hne : ¬ items.length = 0 := by omega
    have hCne : ¬ C ≤ 0 := by omega
    rw [executeBatched, if_neg hne, if_neg hCne]
    have := runBatches_all_ok task (fun _ => false) C.toNat items.length r
      (fun _ => rfl) ((items.length + C.toNat - 1) / C.toNat) items 0 0 hcov
      (by intro k hk; simpa using hok k hk)
    simpa [List.range_eq_range'] using this

theorem runBatches_first_fail (task : α → Nat → Nat → Except ε β)
    (stop : Nat → Bool) (bs total : Nat) (hbs : 0 < bs) (e : ε) :
    ∀ (rem : Nat) (items : List α) (batchIdx start j : Nat)
      (hcov : items.length ≤ rem * bs) (hj : j < items.length),
      task (items.get ⟨j, hj⟩) (start + j) total = .error e →
      (∀ k (hk : k < j),
        ∃ v, task (items.get ⟨k, Nat.lt_trans hk hj⟩) (start + k) total = .ok v) →
      (∀ d, d ≤ j / bs → stop (batchIdx + d) = false) →
      runBatches task stop bs total rem items batchIdx start
        = (.taskFailed e,
           List.range' start (min (j / bs * bs + bs) items.length)) := by
  intro rem
  induction rem with
  | zero =>
    intro items batchIdx start j hcov hj
    exact absurd hj (by simp at hcov; simp [hcov])
  | succ rem ih =>
    intro items batchIdx start j hcov hj hfail hpre hstop
    have hstop0 : stop batchIdx = false := by
      have := hstop 0 (Nat.zero_le _)
      simpa using this
    rw [runBatches, hstop0]
    simp only [Bool.false_eq_true, if_false]
    by_cases hjbs : j < bs
    · -- the failure lands in the current batch
      have hjdiv : j / bs = 0 := Nat.div_eq_of_lt hjbs
      have hjtake : j < (items.take bs).length := by
        rw [List.length_take]; omega
      have hfirst : firstErr (settleBatch task total start (items.take bs)) = some e := by
        apply firstErr_settle_fail task total e (items.take bs) j start hjtake
        · have hget : (items.take bs).get ⟨j, hjtake⟩ = items.get ⟨j, hj⟩ := by
            simp [List.get_eq_getElem, List.getElem_take]
          rw [hget]; exact hfail
        · intro k hk
          obtain ⟨v, hv⟩ := hpre k hk
          have hget : (items.take bs).get ⟨k, Nat.lt_trans hk hjtake⟩
              = items.get ⟨k, Nat.lt_trans hk hj⟩ := by
            simp [List.get_eq_getElem, List.getElem_take]
          exact ⟨v, by rw [hget]; exact hv⟩
      rw [hfirst]
      have hlen : (items.take bs).length = min (j / bs * bs + bs) items.length := by
        rw [List.length_take, hjdiv]
        omega
      rw [hlen]
    · -- the whole current batch succeeds; the failure is in a later batch
      have hbsj : bs ≤ j := Nat.le_of_not_lt hjbs
      have hbslen : bs < items.length := Nat.lt_of_le_of_lt hbsj hj
      have htl : (items.take bs).length = bs := by
        rw [List.length_take]; omega
      have hfirst : firstErr (settleBatch task total start (items.take bs)) = none := by
        apply firstErr_settle_none
        intro k hk
        have hk' : k < j := by rw [htl] at hk; omega
        obtain ⟨v, hv⟩ := hpre k hk'
        have hget : (items.take bs).get ⟨k, hk⟩ = items.get ⟨k, Nat.lt_trans hk' hj⟩ := by
          simp [List.get_eq_getElem, List.getElem_take]
        exact ⟨v, by rw [hget]; exact hv⟩
      rw [hfirst]
      have hj' : j - bs < (items.drop bs).length := by
        rw [List.length_drop]; omega
      have hjdiv : j / bs = (j - bs) / bs + 1 := Nat.div_eq_sub_div hbs hbsj
      have hrec := ih (items.drop bs) (batchIdx + 1) (start + (items.take bs).length)
        (j - bs)
        (by rw [List.length_drop]; rw [Nat.succ_mul] at hcov
            exact Nat.sub_le_iff_le_add.mpr hcov)
        hj'
        (by
          have hget : (items.drop bs).get ⟨j - bs, hj'⟩ = items.get ⟨j, hj⟩ := by
            simp only [List.get_eq_getElem, List.getElem_drop]
            congr 1
            omega
          rw [hget, htl]
          have : start + bs + (j - bs) = start + j := by omega
          rw [this]
          exact hfail)
        (by
          intro k hk
          have hbk : bs + k < j := by omega
          obtain ⟨v, hv⟩ := hpre (bs + k) hbk
          have hget : (items.drop bs).get ⟨k, Nat.lt_trans hk hj'⟩
              = items.get ⟨bs + k, Nat.lt_trans hbk hj⟩ := by
            simp [List.get_eq_getElem, List.getElem_drop]
          refine ⟨v, ?_⟩
          rw [hget, htl]
          have : start + bs + k = start + (bs + k) := by omega
          rw [this]
          exact hv)
        (by
          intro d hd
          have : d + 1 ≤ j / bs := by omega
          have hs := hstop (d + 1) this
          have harr : batchIdx + (d + 1) = batchIdx + 1 + d := by omega
          rw [harr] at hs
          exact hs)
      rw [hrec]
      have htrace : List.range' start (items.take bs).length ++
          List.range' (start + (items.take bs).length)
            (min ((j - bs) / bs * bs + bs) (items.drop bs).length)
          = List.range' start (min (j / bs * bs + bs) items.length) := by
        have harr := List.range'_append start (items.take bs).length
          (min ((j - bs) / bs * bs + bs) (items.drop bs).length) 1
        simp only [Nat.one_mul, Nat.mul_one] at harr
        rw [harr]
        congr 1
        rw [htl, List.length_drop, hjdiv]
        have hmul : ((j - bs) / bs + 1) * bs = (j - bs) / bs * bs + bs :=
          Nat.succ_mul _ _
        rw [hmul]
        generalize (j - bs) / bs * bs = A
        omega
      exact congrArg (fun t => (ExecOutcome.taskFailed e, t)) htrace

/-- C1: if `j` is the earliest item (in global = batch-input order) whose
task fails, every earlier item succeeding, and the stop signal is clear up
to `j`'s batch, then the executor raises exactly `j`'s failure, dispatches
every task of `j`'s batch (no sibling is cancelled: the trace runs through
the whole failing batch, `min ((j/C)*C + C) N`), and dispatches no task of
any later batch. -/
theorem executeBatched_fail_fast (items : List α) (C : Int) (stop : Nat → Bool)
    (task : α → Nat → Nat → Except ε β) (e : ε) (j : Nat)
    (hC : 0 < C) (hj : j < items.length)
    (hfail : task (items.get ⟨j, hj⟩) j items.length = .error e)
    (hpre : ∀ k (hk : k < j),
      ∃ v, task (items.get ⟨k, Nat.lt_trans hk hj⟩) k items.length = .ok v)
    (hstop : ∀ b, b ≤ j / C.toNat → stop b = false) :
    executeBatched items C stop task
      = (.taskFailed e,
         List.range (min (j / C.toNat * C.toNat + C.toNat) items.length)) := by
  have hbs : 0 < C.toNat := by omega
  have hne : ¬ items.length = 0 := by omega
  have hCne : ¬ C ≤ 0 := by omega
  rw [executeBatched, if_neg hne, if_neg hCne]
  have := runBatches_first_fail task stop C.toNat items.length hbs e
    ((items.length + C.toNat - 1) / C.toNat) items 0 0 j
    (le_ceil_mul items.length C.toNat hbs) hj
    (by simpa using hfail)
    (by intro k hk; simpa using hpre k hk)
    (by intro d hd; simpa using hstop d hd)
  simpa [List.range_eq_range'] using this

theorem runBatches_stop_at (task : α → Nat → Nat → Except ε β)
    (stop : Nat → Bool) (bs total : Nat) (hbs : 0 < bs) :
    ∀ (d rem : Nat) (items : List α) (batchIdx start : Nat),
      d * bs < items.length →
      items.length ≤ rem * bs →
      (∀ d', d' < d → stop (batchIdx + d') = false) →
      stop (batchIdx + d) = true →
      (∀ k (hk : k < items.length), k < d * bs →
        ∃ v, task (items.get ⟨k, hk⟩) (start + k) total = .ok v) →
      runBatches task stop bs total rem items batchIdx start
        = (.stoppedByUser, List.range' start (d * bs)) := by
  intro d
  induction d with
  | zero =>
    intro rem items batchIdx start hdlen hcov hstopb hstopd hok
    match rem with
    | 0 =>
      simp only [Nat.zero_mul, Nat.le_zero] at hcov
      omega
    | rem + 1 =>
      rw [runBatches]
      have : stop batchIdx = true := by simpa using hstopd
      rw [this]
      simp
  | succ d ih =>
    intro rem items batchIdx start hdlen hcov hstopb hstopd hok
    have hsm : (d + 1) * bs = d * bs + bs := by ring
    match rem with
    | 0 =>
      simp only [Nat.zero_mul, Nat.le_zero] at hcov
      omega
    | rem + 1 =>
      have hstop0 : stop batchIdx = false := by
        have := hstopb 0 (Nat.succ_pos _)
        simpa using this
      rw [runBatches, hstop0]
      simp only [Bool.false_eq_true, if_false]
      have hbslen : bs < items.length := by omega
      have htl : (items.take bs).length = bs := by
        rw [List.length_take]; omega
      have hfirst : firstErr (settleBatch task total start (items.take bs)) = none := by
        apply firstErr_settle_none
        intro k hk
        have hk' : k < items.length := by rw [htl] at hk; omega
        have hkd : k < (d + 1) * bs := by
          rw [htl] at hk
          omega
        obtain ⟨v, hv⟩ := hok k hk' hkd
        have hget : (items.take bs).get ⟨k, hk⟩ = items.get ⟨k, hk'⟩ := by
          simp [List.get_eq_getElem, List.getElem_take]
        exact ⟨v, by rw [hget]; exact hv⟩
      rw [hfirst]
      have hcovrw : items.length ≤ (rem + 1) * bs := hcov
      have hsm' : (rem + 1) * bs = rem * bs + bs := by ring
      have hrec := ih rem (items.drop bs) (batchIdx + 1) (start + (items.take bs).length)
        (by rw [List.length_drop]; omega)
        (by rw [List.length_drop]; omega)
        (by
          intro d' hd'
          have hs := hstopb (d' + 1) (Nat.succ_lt_succ hd')
          have harr : batchIdx + (d' + 1) = batchIdx + 1 + d' := by omega
          rw [harr] at hs
          exact hs)
        (by
          have harr : batchIdx + (d + 1) = batchIdx + 1 + d := by omega
          rw [harr] at hstopd
          exact hstopd)
        (by
          intro k hk hkd
          have hbk : bs + k < items.length := by
            rw [List.length_drop] at hk
            omega
          have hbkd : bs + k < (d + 1) * bs := by omega
          obtain ⟨v, hv⟩ := hok (bs + k) hbk hbkd
          have hget : (items.drop bs).get ⟨k, hk⟩ = items.get ⟨bs + k, hbk⟩ := by
            simp [List.get_eq_getElem, List.getElem_drop]
          refine ⟨v, ?_⟩
          rw [hget, htl]
          have : start + bs + k = start + (bs + k) := by omega
          rw [this]
          exact hv)
      rw [hrec]
      have htrace : List.range' start (items.take bs).length ++
          List.range' (start + (items.take bs).length) (d * bs)
          = List.range' start ((d + 1) * bs) := by
        have harr := List.range'_append start (items.take bs).length (d * bs) 1
        simp only [Nat.one_mul, Nat.mul_one] at harr
        rw [harr]
        congr 1
        rw [htl]
        omega
      exact congrArg (fun t => (ExecOutcome.stoppedByUser, t)) htrace

/-- C4: the stop signal is sampled once per batch, before dispatch.  If its
sampled value is `false` before every batch up to `b` and `true` before
batch `b` (which exists: `b * C < N`), while every task of the earlier
batches succeeds, the executor raises the distinguished stopped-by-user
error and the dispatch trace is exactly the indices of batches `0..b-1`:
every earlier batch fully settled, and no task of batch `b` or any later
batch ever started. -/
theorem executeBatched_stop_between_batches (items : List α) (C : Int)
    (stop : Nat → Bool) (task : α → Nat → Nat → Except ε β) (b : Nat)
    (hC : 0 < C) (hb : b * C.toNat < items.length)
    (hstopb : ∀ b', b' < b → stop b' = false)
    (hstopd : stop b = true)
    (hok : ∀ k (hk : k < items.length), k < b * C.toNat →
      ∃ v, task (items.get ⟨k, hk⟩) k items.length = .ok v) :
    executeBatched items C stop task
      = (.stoppedByUser, List.range (b * C.toNat)) := by
  have hbs : 0 < C.toNat := by omega
  have hne : ¬ items.length = 0 := by omega
  have hCne : ¬ C ≤ 0 := by omega
  rw [executeBatched, if_neg hne, if_neg hCne]
  have := runBatches_stop_at task stop C.toNat items.length hbs b
    ((items.length + C.toNat - 1) / C.toNat) items 0 0 hb
    (le_ceil_mul items.length C.toNat hbs)
    (by intro d' hd'; simpa using hstopb d' hd')
    (by simpa using hstopd)
    (by intro k hk hkd; simpa using hok k hk hkd)
  simpa [List.range_eq_range'] using this

/-- C7 counterexample: with the empty item list and the non-positive bound
`-1`, `executeBatched` does not raise any error; it returns the empty
result (the source checks `items.length === 0` before the concurrency
guard), refuting the claim's "including the empty list". -/
theorem executeBatched_empty_nonpositive_no_error :
    executeBatched ([] : List Nat) (-1) (fun _ => false)
      (fun _ _ _ => (Except.ok 0 : Except String Nat))
      = (.ok [], []) := rfl

/-- C7 amended: for every NON-EMPTY item list and every bound `C ≤ 0` the
executor raises the invalid-concurrency configuration error before
dispatching any task (the trace is empty); for the empty list it returns
the empty result without dispatching anything, whatever `C` is. -/
theorem executeBatched_nonpositive_concurrency (items : List α) (C : Int)
    (stop : Nat → Bool) (task : α → Nat → Nat → Except ε β)
    (hne : items ≠ []) (hC : C ≤ 0) :
    executeBatched items C stop task = (.invalidConcurrency, [])
    ∧ ∀ (stop' : Nat → Bool) (task' : α → Nat → Nat → Except ε β) (C' : Int),
        executeBatched ([] : List α) C' stop' task' = (.ok [], []) := by
  constructor
  · have hlen : ¬ items.length = 0 := by
      simpa [List.length_eq_zero] using hne
    rw [executeBatched, if_neg hlen, if_pos hC]
  · intro stop' task' C'
    rfl

/-- C7 amended, witness at a concrete input. -/
theorem executeBatched_nonpositive_concurrency_witness :
    executeBatched ([7] : List Nat) 0 (fun _ => false)
      (fun _ _ _ => (Except.ok 1 : Except String Nat))
      = (.invalidConcurrency, []) :=
  (executeBatched_nonpositive_concurrency [7] 0 (fun _ => false)
    (fun _ _ _ => (Except.ok 1 : Except String Nat))
    (by simp) (by omega)).1

/-- C1 witness: three items, concurrency 2, the task at global index 1
fails; the executor reports that failure and dispatches exactly batch 0
(indices 0 and 1), never batch 1. -/
theorem executeBatched_fail_fast_witness :
    executeBatched [10, 20, 30] (2 : Int) (fun _ => false)
      (fun _ i _ => if i = 1 then (Except.error "boom" : Except String Nat) else .ok i)
      = (.taskFailed "boom", [0, 1]) := by
  have h := executeBatched_fail_fast [10, 20, 30] (2 : Int) (fun _ => false)
    (fun _ i _ => if i = 1 then (Except.error "boom" : Except String Nat) else .ok i)
    "boom" 1 (by norm_num) (by norm_num)
    (by rfl)
    (by intro k hk; interval_cases k; exact ⟨0, rfl⟩)
    (by intro b _; rfl)
  exact h.trans (by decide)

/-- C2 witness: five items, concurrency 2, all tasks succeed with their
global index times ten; results come back in input order, all five indices
are dispatched. -/
theorem executeBatched_success_in_order_witness :
    executeBatched [1, 2, 3, 4, 5] (2 : Int) (fun _ => false)
      (fun _ i _ => (Except.ok (i * 10) : Except String Nat))
      = (.ok [0, 10, 20, 30, 40], [0, 1, 2, 3, 4]) := by
  have h := executeBatched_success_in_order [1, 2, 3, 4, 5] (2 : Int)
    (fun _ i _ => (Except.ok (i * 10) : Except String Nat)) (fun i => i * 10)
    (by norm_num) (by intro k hk; rfl)
  exact h.1.trans (by decide)

/-- C4 witness: four items, concurrency 2, stop signal observed `true`
before batch 1: batch 0 fully dispatched, the stopped-by-user error raised,
batch 1 never started. -/
theorem executeBatched_stop_between_batches_witness :
    executeBatched [1, 2, 3, 4] (2 : Int) (fun b => b == 1)
      (fun _ i _ => (Except.ok i : Except String Nat))
      = (.stoppedByUser, [0, 1]) := by
  have h := executeBatched_stop_between_batches [1, 2, 3, 4] (2 : Int)
    (fun b => b == 1) (fun _ i _ => (Except.ok i : Except String Nat)) 1
    (by norm_num) (by norm_num)
    (by intro b' hb'; interval_cases b'; rfl)
    (by rfl)
    (by intro k hk _; exact ⟨k, rfl⟩)
  exact h.trans (by decide)

/-! ## Parallelism resolver theorems -/

/-- All integer values supplied by a configuration object are positive. -/
def cfgPositive (c : ParallelismConfig) : Prop :=
  (∀ v, c.default = some v → 0 < v) ∧ ∀ ph v, phaseField c ph = some v → 0 < v

/-- C5 counterexample: a caller configuration carrying `default := 0` makes
`resolveParallelism` return `0`, which is not a positive integer — the
resolver performs no positivity validation, so the claim's "returning a
positive integer" fails as stated. -/
theorem resolveParallelism_zero_not_positive :
    resolveParallelism .ingest (some { default := some 0 }) none = 0
    ∧ ¬ 0 < resolveParallelism .ingest (some { default := some 0 }) none :=
  ⟨rfl, by decide⟩

/-- C5 amended: `resolveParallelism` is a pure function returning the
integer chosen by the claimed priority chain — caller per-phase, caller
default, provider per-phase, provider default, fallback `1` — and that
integer is positive whenever every value the configurations supply is
positive (in particular always when neither is supplied); the four example
evaluations of the claim all hold. -/
theorem resolveParallelism_priority_chain :
    (∀ (ph : PhaseId) (c : ParallelismConfig) (prov : Option ParallelismConfig)
      (v : Int), phaseField c ph = some v →
        resolveParallelism ph (some c) prov = v)
    ∧ (∀ (ph : PhaseId) (c : ParallelismConfig) (prov : Option ParallelismConfig)
        (v : Int), phaseField c ph = none → c.default = some v →
        resolveParallelism ph (some c) prov = v)
    ∧ (∀ (ph : PhaseId) (c : ParallelismConfig) (prov : Option ParallelismConfig),
        phaseField c ph = none → c.default = none →
        resolveParallelism ph (some c) prov = resolveParallelism ph none prov)
    ∧ (∀ (ph : PhaseId) (p : ParallelismConfig) (v : Int),
        phaseField p ph = some v → resolveParallelism ph none (some p) = v)
    ∧ (∀ (ph : PhaseId) (p : ParallelismConfig) (v : Int),
        phaseField p ph = none → p.default = some v →
        resolveParallelism ph none (some p) = v)
    ∧ (∀ ph : PhaseId, resolveParallelism ph none none = 1)
    ∧ (∀ (ph : PhaseId) (cli prov : Option ParallelismConfig),
        (∀ c, cli = some c → cfgPositive c) →
        (∀ c, prov = some c → cfgPositive c) →
        0 < resolveParallelism ph cli prov)
    ∧ resolveParallelism .ingest (some { default := some 5, ingest := some 3 })
        (some { default := some 1, ingest := some 2 }) = 3
    ∧ resolveParallelism .ingest (some { default := some 5 })
        (some { ingest := some 2 }) = 5
    ∧ resolveParallelism .ingest none (some { default := some 1 }) = 1
    ∧ resolveParallelism .ingest none none = 1 := by
  refine ⟨?_, ?_, ?_, ?_, ?_, ?_, ?_, rfl, rfl, rfl, rfl⟩
  · intro ph c prov v h
    simp [resolveParallelism, h]
  · intro ph c prov v h1 h2
    simp [resolveParallelism, h1, h2]
  · intro ph c prov h1 h2
    simp [resolveParallelism, h1, h2]
  · intro ph p v h
    simp [resolveParallelism, h]
  · intro ph p v h1 h2
    simp [resolveParallelism, h1, h2]
  · intro ph
    rfl
  · intro ph cli prov hcli hprov
    unfold resolveParallelism
    split
    next v heq =>
      obtain ⟨c, hc, hv⟩ := Option.bind_eq_some.mp heq
      exact (hcli c hc).2 ph v hv
    next =>
      split
      next v heq =>
        obtain ⟨c, hc, hv⟩ := Option.bind_eq_some.mp heq
        exact (hcli c hc).1 v hv
      next =>
        split
        next v heq =>
          obtain ⟨c, hc, hv⟩ := Option.bind_eq_some.mp heq
          exact (hprov c hc).2 ph v hv
        next =>
          split
          next v heq =>
            obtain ⟨c, hc, hv⟩ := Option.bind_eq_some.mp heq
            exact (hprov c hc).1 v hv
          next =>
            decide

/-- C5 witness for the amended claim: the positivity conjunct applied at a
concrete configuration. -/
theorem resolveParallelism_priority_chain_witness :
    0 < resolveParallelism .answer (some { default := some 4 }) none := by
  apply resolveParallelism_priority_chain.2.2.2.2.2.2.1 .answer
    (some { default := some 4 }) none
  · intro c hc
    injection hc with h
    subst h
    constructor
    · intro v hv
      injection hv with h2
      omega
    · intro ph v hv
      cases ph <;> simp [phaseField] at hv
  · intro c hc
    exact Option.noConfusion hc

/-! ## Container tag theorem -/

/-- C9: the container tag derived by the ingest phase and by the search
phase is the same pure function of the question identifier and the
data-source run identifier, so any re-derivation from the same two
identifiers (on resume or in another phase) yields the identical value. -/
theorem containerTag_deterministic_across_phases
    (questionId dataSourceRunId : String) :
    ingestContainerTag questionId dataSourceRunId
      = searchContainerTag questionId dataSourceRunId
    ∧ ingestContainerTag questionId dataSourceRunId
      = questionId ++ "-" ++ dataSourceRunId :=
  ⟨rfl, rfl⟩

/-! ## Failure wrapping theorems -/

theorem append_ne_middle (p s t : String) (hp : p.length ≠ 0) :
    p ++ s ++ t ≠ s := by
  intro h
  have hl := congrArg String.length h
  rw [String.length_append, String.length_append] at hl
  omega

/-- C8: when a per-question task fails, the checkpoint records the phase as
`failed` carrying the raw collaborator error message, and the error the
task throws to the Batch Executor is the wrapped one — it names the
offending question identifier, ends with the fixed remediation instruction
("fix the issue and resume with the same run ID"), and is never the raw
collaborator error itself.  Shown for the search task on any failing search
outcome and for the ingest task on every failing run. -/
theorem phase_failure_recorded_then_wrapped :
    (∀ (questionId resultsDir e : String) (st : SearchPhaseState),
      (runSearchTask questionId resultsDir (.error e) st).1.status = .failed
      ∧ (runSearchTask questionId resultsDir (.error e) st).1.error = some e
      ∧ (runSearchTask questionId resultsDir (.error e) st).2
          = .error (wrapSearchError questionId e)
      ∧ wrapSearchError questionId e
          = "Search failed at " ++ questionId ++ ": " ++ e ++ remediationSuffix
      ∧ wrapSearchError questionId e ≠ e)
    ∧ (∀ (questionId : String) (prov : String → Except String IngestResult)
        (sessions : List String) (st : IngestPhaseState) (e : String),
        (ingestLoop prov sessions st.completedSessions
          { documentIds := [], taskIds := some [] }).outcome = .error e →
        (runIngestTask questionId prov sessions st).1.status = .failed
          ∧ (runIngestTask questionId prov sessions st).1.error = some e
          ∧ (runIngestTask questionId prov sessions st).2
              = .error (wrapIngestError questionId e)
          ∧ wrapIngestError questionId e
              = "Ingest failed at " ++ questionId ++ ": " ++ e ++ remediationSuffix
          ∧ wrapIngestError questionId e ≠ e) := by
  constructor
  · intro questionId resultsDir e st
    refine ⟨rfl, rfl, rfl, rfl, ?_⟩
    show ("Search failed at " ++ questionId ++ ": ") ++ e
        ++ ". Fix the issue and resume with the same run ID." ≠ e
    apply append_ne_middle
    rw [String.length_append]
    have h17 : ("Search failed at " : String).length = 17 := rfl
    have h2 : (": " : String).length = 2 := rfl
    omega
  · intro questionId prov sessions st e h
    simp only [runIngestTask, h]
    refine ⟨trivial, trivial, trivial, rfl, ?_⟩
    show ("Ingest failed at " ++ questionId ++ ": ") ++ e
        ++ ". Fix the issue and resume with the same run ID." ≠ e
    apply append_ne_middle
    rw [String.length_append]
    have h17 : ("Ingest failed at " : String).length = 17 := rfl
    have h2 : (": " : String).length = 2 := rfl
    omega

/-- C8 witness: a concrete ingest failure. -/
theorem phase_failure_recorded_then_wrapped_witness :
    (runIngestTask "q1" (fun _ => (Except.error "boom" : Except String IngestResult))
        ["s1"] {}).1.status = .failed
    ∧ (runIngestTask "q1" (fun _ => (Except.error "boom" : Except String IngestResult))
        ["s1"] {}).1.error = some "boom"
    ∧ (runIngestTask "q1" (fun _ => (Except.error "boom" : Except String IngestResult))
        ["s1"] {}).2 = .error (wrapIngestError "q1" "boom")
    ∧ wrapIngestError "q1" "boom"
        = "Ingest failed at " ++ "q1" ++ ": " ++ "boom" ++ remediationSuffix
    ∧ wrapIngestError "q1" "boom" ≠ "boom" :=
  phase_failure_recorded_then_wrapped.2 "q1"
    (fun _ => (Except.error "boom" : Except String IngestResult))
    ["s1"] {} "boom" (by rfl)

/-! ## Answer prompt substitution theorems -/

theorem splitFirst_some_decomp (p : List Char) :
    ∀ (s a b : List Char), splitFirst p s = some (a, b) → s = a ++ p ++ b := by
  intro s
  induction s with
  | nil =>
    intro a b h
    rw [splitFirst] at h
    split at h
    next hp =>
      injection h with h2
      rw [Prod.mk.injEq] at h2
      obtain ⟨ha, hb⟩ := h2
      have hpre : p <+: ([] : List Char) := List.isPrefixOf_iff_prefix.mp hp
      have hpnil : p = [] := List.prefix_nil.mp hpre
      subst hpnil
      simp [← ha, ← hb]
    next => exact absurd h (by simp)
  | cons c rest ih =>
    intro a b h
    rw [splitFirst] at h
    split at h
    next hp =>
      injection h with h2
      rw [Prod.mk.injEq] at h2
      obtain ⟨ha, hb⟩ := h2
      obtain ⟨t, ht⟩ := List.isPrefixOf_iff_prefix.mp hp
      rw [← ha, ← hb, ← ht, List.drop_left]
      simp
    next hp =>
      cases hsp : splitFirst p rest with
      | none => rw [hsp] at h; exact absurd h (by simp)
      | some ab =>
        obtain ⟨a0, b0⟩ := ab
        rw [hsp] at h
        injection h with h2
        rw [Prod.mk.injEq] at h2
        obtain ⟨ha, hb⟩ := h2
        have hrest := ih a0 b0 hsp
        rw [← ha, ← hb, hrest]
        simp

theorem splitFirst_some_minimal (p : List Char) :
    ∀ (s a b : List Char), splitFirst p s = some (a, b) →
      ∀ a' b', s = a' ++ p ++ b' → a.length ≤ a'.length := by
  intro s
  induction s with
  | nil =>
    intro a b h a' b' _
    rw [splitFirst] at h
    split at h
    next =>
      injection h with h2
      rw [Prod.mk.injEq] at h2
      obtain ⟨ha, _⟩ := h2
      simp [← ha]
    next => exact absurd h (by simp)
  | cons c rest ih =>
    intro a b h a' b' hs
    rw [splitFirst] at h
    split at h
    next =>
      injection h with h2
      rw [Prod.mk.injEq] at h2
      obtain ⟨ha, _⟩ := h2
      simp [← ha]
    next hp =>
      cases hsp : splitFirst p rest with
      | none => rw [hsp] at h; exact absurd h (by simp)
      | some ab =>
        obtain ⟨a0, b0⟩ := ab
        rw [hsp] at h
        injection h with h2
        rw [Prod.mk.injEq] at h2
        obtain ⟨ha, _⟩ := h2
        cases a' with
        | nil =>
          exfalso
          apply hp
          rw [List.isPrefixOf_iff_prefix]
          exact ⟨b', by simpa using hs.symm⟩
        | cons c' a'' =>
          have h2 : c :: rest = c' :: (a'' ++ p ++ b') := by simpa using hs
          injection h2 with _ hrest
          have := ih a0 b0 hsp a'' b' hrest
          rw [← ha]
          simp only [List.length_cons]
          omega

theorem substDollar_no_dollar (matched before after : List Char) :
    ∀ v : List Char, '$' ∉ v → substDollar matched before after v = v := by
  intro v
  induction v with
  | nil => intro _; rfl
  | cons c rest ih =>
    intro h
    have hc : c ≠ '$' := by
      intro hh
      exact h (hh ▸ List.mem_cons_self c rest)
    have hrest : '$' ∉ rest := fun hm => h (List.mem_cons_of_mem c hm)
    have hstep : substDollar matched before after (c :: rest)
        = c :: substDollar matched before after rest := by
      rw [substDollar.eq_def]
      simp [hc]
    rw [hstep, ih hrest]

/-- C10: for a string-template override, `buildAnswerPrompt` performs one
first-occurrence-only substitution per placeholder — the substitution
primitive rewrites the shortest decomposition around the pattern and copies
the remainder (where any later occurrence lives) verbatim — and an absent
question date is substituted as the literal text "Not specified" (which,
being dollar-free, is inserted exactly). -/
theorem buildAnswerPrompt_first_occurrence_only :
    (∀ (κ : Type) (buildContextString : κ → List Char)
      (buildDefaultAnswerPrompt : List Char → κ → Option (List Char) → List Char)
      (question : List Char) (context : κ) (t : List Char),
      buildAnswerPrompt buildContextString buildDefaultAnswerPrompt question
          context none (some (.tmpl t))
        = jsReplaceFirst
            (jsReplaceFirst (jsReplaceFirst t questionPlaceholder question)
              questionDatePlaceholder notSpecifiedText)
            contextPlaceholder (buildContextString context))
    ∧ (∀ (p s v a b : List Char), splitFirst p s = some (a, b) →
        s = a ++ p ++ b
        ∧ jsReplaceFirst s p v = a ++ substDollar p a b v ++ b
        ∧ ∀ a' b', s = a' ++ p ++ b' → a.length ≤ a'.length)
    ∧ (∀ (p s v : List Char), splitFirst p s = none → jsReplaceFirst s p v = s)
    ∧ (∀ (m x y v : List Char), '$' ∉ v → substDollar m x y v = v) := by
  refine ⟨?_, ?_, ?_, fun m x y => substDollar_no_dollar m x y⟩
  · intro κ bcs bdef q ctx t
    rfl
  · intro p s v a b h
    refine ⟨splitFirst_some_decomp p s a b h, ?_, splitFirst_some_minimal p s a b h⟩
    rw [jsReplaceFirst, h]
  · intro p s v h
    rw [jsReplaceFirst, h]

/-- Template used only by the C10 witness: the question placeholder occurs
twice. -/
def c10Template : List Char := "Q: \x7b\x7bquestion\x7d\x7d again \x7b\x7bquestion\x7d\x7d".data

/-- C10 witness: on a template with two question placeholders, only the
first is replaced; the second survives verbatim in the copied tail. -/
theorem buildAnswerPrompt_first_occurrence_only_witness :
    splitFirst questionPlaceholder c10Template
      = some ("Q: ".data, " again \x7b\x7bquestion\x7d\x7d".data)
    ∧ jsReplaceFirst c10Template questionPlaceholder "Bob".data
      = "Q: ".data ++ "Bob".data ++ " again \x7b\x7bquestion\x7d\x7d".data := by
  have hsplit : splitFirst questionPlaceholder c10Template
      = some ("Q: ".data, " again \x7b\x7bquestion\x7d\x7d".data) := by decide
  have h := buildAnswerPrompt_first_occurrence_only.2.1 questionPlaceholder
    c10Template "Bob".data _ _ hsplit
  refine ⟨hsplit, ?_⟩
  rw [h.2.1,
    buildAnswerPrompt_first_occurrence_only.2.2.2 _ _ _ _ (by decide)]

/-! ## Working-set theorems -/

theorem match_resultFile_iff (o : Option String) (fileExists : String → Bool) :
    (match o with
     | some f => f != "" && fileExists f
     | none => false) = true
    ↔ ∃ f, o = some f ∧ f ≠ "" ∧ fileExists f = true := by
  cases o with
  | none => simp
  | some f => simp [Bool.and_eq_true, bne_iff_ne]

theorem match_hypothesis_iff (o : Option String) :
    (match o with
     | some h => h != ""
     | none => false) = true
    ↔ ∃ h, o = some h ∧ h ≠ "" := by
  cases o with
  | none => simp
  | some h => simp [bne_iff_ne]

theorem phaseRunnerDispatch_eq_none (l : List σ) :
    phaseRunnerDispatch l = none ↔ l = [] := by
  rw [phaseRunnerDispatch]
  by_cases h : l.isEmpty
  · rw [if_pos h]
    simp [List.isEmpty_iff] at h
    simp [h]
  · rw [if_neg h]
    simp [List.isEmpty_iff] at h
    simp [h]

/-- C6: in every phase runner the working set contains a candidate question
exactly when that phase's status is not `completed` and the spec's
prerequisite for the phase holds (none for ingest; ingest completed for
indexing; indexing completed for search; search completed with the recorded
result artifact still existing for answer; answer completed with a
non-empty stored hypothesis for evaluate), and each runner invokes the
Batch Executor iff the working set is non-empty (empty working set:
return without dispatching). -/
theorem workingSet_matches_spec :
    (∀ (questions : List BenchQuestion) (questionIds : Option (List String))
        (cp : RunCheckpoint) (q : BenchQuestion),
      q ∈ ingestPendingQuestions questions questionIds cp ↔
        q ∈ targetOf questions questionIds ∧ specIncludedIngest cp q.questionId)
    ∧ (∀ (cp : RunCheckpoint) (questionIds : Option (List String))
        (q : QuestionCheckpoint),
      q ∈ indexingPendingQuestions cp questionIds ↔
        q ∈ indexingCandidates cp questionIds ∧ specIncludedIndexing q)
    ∧ (∀ (questions : List BenchQuestion) (questionIds : Option (List String))
        (cp : RunCheckpoint) (q : BenchQuestion),
      q ∈ searchPendingQuestions questions questionIds cp ↔
        q ∈ targetOf questions questionIds ∧ specIncludedSearch cp q.questionId)
    ∧ (∀ (questions : List BenchQuestion) (questionIds : Option (List String))
        (cp : RunCheckpoint) (fileExists : String → Bool) (q : BenchQuestion),
      q ∈ answerPendingQuestions questions questionIds cp fileExists ↔
        q ∈ targetOf questions questionIds
          ∧ specIncludedAnswer cp fileExists q.questionId)
    ∧ (∀ (questions : List BenchQuestion) (questionIds : Option (List String))
        (cp : RunCheckpoint) (q : BenchQuestion),
      q ∈ evaluatePendingQuestions questions questionIds cp ↔
        q ∈ targetOf questions questionIds ∧ specIncludedEvaluate cp q.questionId)
    ∧ (∀ (questions : List BenchQuestion) (questionIds : Option (List String))
        (cp : RunCheckpoint),
      runIngestPhaseDispatch questions questionIds cp = none
        ↔ ingestPendingQuestions questions questionIds cp = [])
    ∧ (∀ (cp : RunCheckpoint) (questionIds : Option (List String)),
      runIndexingPhaseDispatch cp questionIds = none
        ↔ indexingPendingQuestions cp questionIds = [])
    ∧ (∀ (questions : List BenchQuestion) (questionIds : Option (List String))
        (cp : RunCheckpoint),
      runSearchPhaseDispatch questions questionIds cp = none
        ↔ searchPendingQuestions questions questionIds cp = [])
    ∧ (∀ (questions : List BenchQuestion) (questionIds : Option (List String))
        (cp : RunCheckpoint) (fileExists : String → Bool),
      runAnswerPhaseDispatch questions questionIds cp fileExists = none
        ↔ answerPendingQuestions questions questionIds cp fileExists = [])
    ∧ (∀ (questions : List BenchQuestion) (questionIds : Option (List String))
        (cp : RunCheckpoint),
      runEvaluatePhaseDispatch questions questionIds cp = none
        ↔ evaluatePendingQuestions questions questionIds cp = []) := by
  refine ⟨?_, ?_, ?_, ?_, ?_,
    fun questions questionIds cp => phaseRunnerDispatch_eq_none _,
    fun cp questionIds => phaseRunnerDispatch_eq_none _,
    fun questions questionIds cp => phaseRunnerDispatch_eq_none _,
    fun questions questionIds cp fileExists => phaseRunnerDispatch_eq_none _,
    fun questions questionIds cp => phaseRunnerDispatch_eq_none _⟩
  · intro questions questionIds cp q
    simp [ingestPendingQuestions, specIncludedIngest, List.mem_filter,
      bne_iff_ne]
  · intro cp questionIds q
    simp [indexingPendingQuestions, specIncludedIndexing, List.mem_filter,
      Bool.and_eq_true, bne_iff_ne, beq_iff_eq, and_comm]
  · intro questions questionIds cp q
    simp [searchPendingQuestions, specIncludedSearch, List.mem_filter,
      Bool.and_eq_true, bne_iff_ne, beq_iff_eq]
  · intro questions questionIds cp fileExists q
    rw [answerPendingQuestions, List.mem_filter, specIncludedAnswer]
    simp only [Bool.and_eq_true, bne_iff_ne, beq_iff_eq, match_resultFile_iff,
      ne_eq]
    tauto
  · intro questions questionIds cp q
    rw [evaluatePendingQuestions, List.mem_filter, specIncludedEvaluate]
    simp only [Bool.and_eq_true, bne_iff_ne, beq_iff_eq, match_hypothesis_iff,
      ne_eq]
    tauto

/-- Checkpoint used only by the working-set witness: `q1` has search
completed with an existing artifact and answer still pending. -/
def c6Checkpoint : RunCheckpoint :=
  { runId := "r1"
    dataSourceRunId := "ds1"
    questions := [("q1",
      { questionId := "q1"
        ingest := { status := .completed }
        indexing := { status := .completed }
        search := { status := .completed, resultFile := some "f.json" }
        answer := { status := .pending }
        evaluate := { status := .pending } })] }

/-- C6 witness: on the concrete checkpoint, `q1` is in the answer working
set, and an empty candidate set makes the answer runner return without
invoking the executor. -/
theorem workingSet_matches_spec_witness :
    (⟨"q1"⟩ : BenchQuestion) ∈ answerPendingQuestions [⟨"q1"⟩] none
      c6Checkpoint (fun s => s == "f.json")
    ∧ runAnswerPhaseDispatch [] none c6Checkpoint (fun _ => false) = none := by
  constructor
  · apply (workingSet_matches_spec.2.2.2.1 [⟨"q1"⟩] none c6Checkpoint
      (fun s => s == "f.json") ⟨"q1"⟩).mpr
    exact ⟨by decide, by decide, by decide, ⟨"f.json", rfl, by decide, rfl⟩⟩
  · exact (workingSet_matches_spec.2.2.2.2.2.2.2.2.1 [] none c6Checkpoint
      (fun _ => false)).mpr rfl

/-! ## Ingest resume: document identifiers from a failed attempt are lost

The spec requires the final stored ingest result to be the deduplicated
union of the identifiers returned for all of the question's sessions,
including sessions completed during earlier failed attempts.  The code only
persists `ingestResult` when the whole question succeeds, while the
per-session loop persists `completedSessions` alone — so on resume the
skipped sessions contribute no identifiers and the previously returned ones
are gone. -/

/-- The question's session list in the divergence scenario. -/
def c3SessionList : List String := ["s1", "s2", "s3"]

/-- First attempt: sessions 1 and 2 ingest fine (returning documents `d1`
and `d2`), session 3 fails. -/
def c3ProvAttempt1 : String → Except String IngestResult := fun sid =>
  if sid = "s1" then .ok { documentIds := ["d1"], taskIds := none }
  else if sid = "s2" then .ok { documentIds := ["d2"], taskIds := none }
  else .error "ingest http 500"

/-- Second attempt after resume: session 3 now succeeds with document
`d3` (any other call would return `dX`, but none happens). -/
def c3ProvAttempt2 : String → Except String IngestResult := fun sid =>
  if sid = "s3" then .ok { documentIds := ["d3"], taskIds := none }
  else .ok { documentIds := ["dX"], taskIds := none }

/-- The ingest phase state after the failed first attempt. -/
def c3AfterAttempt1 : IngestPhaseState :=
  (runIngestTask "q1" c3ProvAttempt1 c3SessionList {}).1

/-- The ingest phase state after the successful resumed attempt. -/
def c3AfterAttempt2 : IngestPhaseState :=
  (runIngestTask "q1" c3ProvAttempt2 c3SessionList c3AfterAttempt1).1

/-- C3 divergence, evaluated on the code model: after the failed attempt
the checkpoint lists sessions 1-2 as completed but stores no ingest result;
the resumed attempt calls the provider exactly for session 3 and finally
stores `documentIds = [d3]` — the identifiers `d1`, `d2` returned during
the failed attempt are missing from the stored result, not the
deduplicated union `d1,d2,d3` the spec promises. -/
theorem ingest_resume_loses_failed_attempt_docIds :
    c3AfterAttempt1.status = .failed
    ∧ c3AfterAttempt1.completedSessions = ["s1", "s2"]
    ∧ c3AfterAttempt1.ingestResult = none
    ∧ (ingestLoop c3ProvAttempt2 c3SessionList c3AfterAttempt1.completedSessions
        { documentIds := [], taskIds := some [] }).calls = ["s3"]
    ∧ c3AfterAttempt2.status = .completed
    ∧ c3AfterAttempt2.ingestResult
        = some { documentIds := ["d3"], taskIds := none }
    ∧ "d1" ∉ (c3AfterAttempt2.ingestResult.getD
        { documentIds := [], taskIds := none }).documentIds := by
  refine ⟨rfl, rfl, rfl, rfl, rfl, rfl, by decide⟩

end Memorybench
